import Mathlib

/-!
Verification of the annotated-DDL parser in
`src/python/lsst/dax/metaserv/schema_utils.py` (`parse_schema` and its
helper functions).  The parser is a line-by-line state machine driven by a
handful of regular expressions; we embed each regular expression as an
executable Lean function on `List Char` with Python `re` semantics
(leftmost match, greedy/lazy groups as in the source), and embed the state
machine as a fold over the input lines with an explicit state record.

Python lines obtained by iterating over a file carry a trailing newline.
The newline is observable only in the `_defaultLine` regex (whose lazy
group needs a terminating `[\s,]` character); everywhere else the regexes
cannot cross or consume `'\n'`.  We therefore model input lines without
the trailing newline and re-append it exactly where the source's
behaviour depends on it (`defaultLineFound`).

Python exceptions that `parse_schema` can raise (`KeyError` from the
`MYSQL_TYPE_MAP` lookup, `AttributeError` from `.group` on a failed
search, `TypeError` from indexing `None`, `ValueError` from `int`,
`IndexError` from `split()[1]`) are modelled with the `PyErr` type and an
`Except` result.
-/

namespace MetaServ

/-- Python `\s` on the ASCII range (space, tab, newline, CR, VT, FF). -/
def isSpaceChar (c : Char) : Bool :=
  c = ' ' || c = '\t' || c = '\n' || c = '\r' || c = '\x0b' || c = '\x0c'

/-- Python `\w` on the ASCII range: letters, digits, underscore. -/
def isWordChar (c : Char) : Bool :=
  c.isAlphanum || c = '_'

def dropSpaces (cs : List Char) : List Char := cs.dropWhile isSpaceChar

/-- Generic leftmost-match search: try the matcher at every suffix of the
input, left to right, exactly like `re.search` advancing its start
position. -/
def scanOption {α : Type} (f : List Char → Option α) : List Char → Option α
  | [] => f []
  | c :: rest =>
    match f (c :: rest) with
    | some a => some a
    | none => scanOption f rest

/-- Boolean variant of `scanOption`. -/
def scanAny (f : List Char → Bool) : List Char → Bool
  | [] => f []
  | c :: rest => f (c :: rest) || scanAny f rest

/-- Does `needle` occur as a contiguous substring of `hay`?  (Python
`needle in hay`.) -/
def containsSub (needle : List Char) : List Char → Bool
  | [] => needle.isPrefixOf []
  | c :: rest => needle.isPrefixOf (c :: rest) || containsSub needle rest

/-- Start positions (at most one char past the end) where `close` occurs
as a prefix of `mid.drop j`. -/
def closePositions (close mid : List Char) : List Nat :=
  (List.range (mid.length + 1)).filter (fun j => close.isPrefixOf (mid.drop j))

/-- Greedy group extraction for a pattern `(.{minLen,})close` applied to
`mid`: the group runs to the LAST occurrence of `close`, must have at
least `minLen` characters, and (since `.` does not match a newline) may
not contain `'\n'`. -/
def greedyGroup (close mid : List Char) (minLen : Nat) : Option (List Char) :=
  let js := (closePositions close mid).filter
    (fun j => decide (minLen ≤ j) && !((mid.take j).contains '\n'))
  js.getLast?.map (fun j => mid.take j)

/-- Matcher at one position for `opn(.{minLen,})close` (greedy). -/
def tagAt (opn close : List Char) (minLen : Nat) (cs : List Char) : Option (List Char) :=
  if opn.isPrefixOf cs then greedyGroup close (cs.drop opn.length) minLen else none

/-! ### The compiled regexes of the source module -/

/-- `_tableStart = re.compile(r'CREATE TABLE (\w+)')`, matcher at one
position. -/
def tableStartAt (cs : List Char) : Option (List Char) :=
  if ("CREATE TABLE ".toList).isPrefixOf cs then
    let w := (cs.drop 13).takeWhile isWordChar
    if w.isEmpty then none else some w
  else none

/-- `_tableStart.search(line)`, returning group 1. -/
def tableStartSearch (cs : List Char) : Option (List Char) :=
  scanOption tableStartAt cs

/-- `_tableEnd = re.compile(r"\)")` used with `.match`: the line starts
with a closing parenthesis. -/
def tableEndMatchL (cs : List Char) : Bool :=
  cs.head? == some ')'

/-- `_commentLine = re.compile(r'\s*--')` used with `.match`. -/
def isCommentLineL (cs : List Char) : Bool :=
  ['-', '-'].isPrefixOf (dropSpaces cs)

/-- Suffix of `_engineLine` after the `ENGINE`/`TYPE` keyword:
`\s*=[\s]*(\w+)\s*;`, returning group 2 of the original regex. -/
def engineAfterKw (cs : List Char) : Option (List Char) :=
  match dropSpaces cs with
  | '=' :: r2 =>
    let r3 := dropSpaces r2
    let w := r3.takeWhile isWordChar
    if w.isEmpty then none
    else
      match dropSpaces (r3.dropWhile isWordChar) with
      | ';' :: _ => some w
      | _ => none
  | _ => none

/-- `_engineLine = re.compile(r'\)\s*(ENGINE|TYPE)\s*=[\s]*(\w+)\s*;')`
used with `.match`, returning group 2 (the engine name). -/
def engineLineMatchL (cs : List Char) : Option (List Char) :=
  match cs with
  | ')' :: rest =>
    let r := dropSpaces rest
    if ("ENGINE".toList).isPrefixOf r then engineAfterKw (r.drop 6)
    else if ("TYPE".toList).isPrefixOf r then engineAfterKw (r.drop 4)
    else none
  | _ => none

/-- `_columnLine = re.compile(r'\s*(\w+)\s+\w+')` used with `.match`,
returning group 1 (the first identifier on the line). -/
def columnLineMatchL (cs : List Char) : Option (List Char) :=
  let r := dropSpaces cs
  let w := r.takeWhile isWordChar
  if w.isEmpty then none
  else
    let r2 := r.dropWhile isWordChar
    let sp := r2.takeWhile isSpaceChar
    if sp.isEmpty then none
    else
      match r2.dropWhile isSpaceChar with
      | c :: _ => if isWordChar c then some w else none
      | [] => none

/-- Matcher after an opening parenthesis for the lazy pattern
`\((.+?)\)` of `_idxCols`: at least one arbitrary character, then the
group stops at the FIRST subsequent `)`. -/
def idxColsAt : List Char → Option (List Char)
  | [] => none
  | x :: rest =>
    if x = '\n' then none
    else
      let mid := rest.takeWhile (fun c => c ≠ ')' && c ≠ '\n')
      match rest.dropWhile (fun c => c ≠ ')' && c ≠ '\n') with
      | ')' :: _ => some (x :: mid)
      | _ => none

/-- `_idxCols = re.compile(r'\((.+?)\)')` used with `.search`. -/
def idxColsSearch (cs : List Char) : Option (List Char) :=
  scanOption (fun s => match s with | '(' :: rest => idxColsAt rest | _ => none) cs

/-- `_unitLine = re.compile(r'<unit>(.+)</unit>')` used with `.search`. -/
def unitSearch (cs : List Char) : Option (List Char) :=
  scanOption (tagAt ("<unit>".toList) ("</unit>".toList) 1) cs

/-- `_ucdLine = re.compile(r'<ucd>(.+)</ucd>')` used with `.search`. -/
def ucdSearch (cs : List Char) : Option (List Char) :=
  scanOption (tagAt ("<ucd>".toList) ("</ucd>".toList) 1) cs

/-- `_descrLine = re.compile(r'<descr>(.+)</descr>')` used with `.search`. -/
def descrLineSearch (cs : List Char) : Option (List Char) :=
  scanOption (tagAt ("<descr>".toList) ("</descr>".toList) 1) cs

/-- Matcher at one position for `_descrStart = re.compile(r'<descr>(.+)')`:
the greedy group runs from just after `<descr>` to the end of the line
(stopping before a newline) and must be non-empty. -/
def descrStartAt (cs : List Char) : Option (List Char) :=
  if ("<descr>".toList).isPrefixOf cs then
    let mid := (cs.drop 7).takeWhile (fun c => c ≠ '\n')
    if mid.isEmpty then none else some mid
  else none

/-- `_descrStart.search(line)`, returning group 1. -/
def descrStartSearchL (cs : List Char) : Option (List Char) :=
  scanOption descrStartAt cs

/-- Matcher at one position for `_descrMiddle = re.compile(r'--(.+)')`. -/
def descrMiddleAt : List Char → Option (List Char)
  | '-' :: '-' :: r2 =>
    let mid := r2.takeWhile (fun c => c ≠ '\n')
    if mid.isEmpty then none else some mid
  | _ => none

/-- `_descrMiddle.search(line)`, returning group 1. -/
def descrMiddleSearch (cs : List Char) : Option (List Char) :=
  scanOption descrMiddleAt cs

/-- `_descrEnd = re.compile(r'--(.*)</descr>')` used with `.search`:
group 1 may be empty and runs greedily to the LAST `</descr>`. -/
def descrEndSearchL (cs : List Char) : Option (List Char) :=
  scanOption (tagAt ['-', '-'] ("</descr>".toList) 0) cs

/-- Matcher for `_size_parameter = re.compile(r'\((.+)\)')` with the
match start index, as `_retrType` uses `match.start()`. -/
def sizeParamAux : List Char → Nat → Option (Nat × List Char)
  | [], _ => none
  | '(' :: rest, i =>
    (match greedyGroup [')'] rest 1 with
     | some g => some (i, g)
     | none => sizeParamAux rest (i + 1))
  | _ :: rest, i => sizeParamAux rest (i + 1)

/-- `_size_parameter.search(datatype)` with the index of the matched `(`. -/
def sizeParamSearch (cs : List Char) : Option (Nat × List Char) :=
  sizeParamAux cs 0

/-! ### Python string helpers used by the source -/

/-- `str.split()` with no argument: split on whitespace runs, dropping
empty pieces. -/
def pySplitAux : List Char → List Char → List (List Char)
  | [], acc => if acc.isEmpty then [] else [acc.reverse]
  | c :: rest, acc =>
    if isSpaceChar c then
      if acc.isEmpty then pySplitAux rest [] else acc.reverse :: pySplitAux rest []
    else pySplitAux rest (c :: acc)

def pySplitL (cs : List Char) : List (List Char) := pySplitAux cs []

/-- `str.split(',')`: split on every comma, keeping empty pieces. -/
def splitOnCommaAux : List Char → List Char → List (List Char)
  | [], acc => [acc.reverse]
  | c :: rest, acc =>
    if c = ',' then acc.reverse :: splitOnCommaAux rest []
    else splitOnCommaAux rest (c :: acc)

def splitOnComma (cs : List Char) : List (List Char) := splitOnCommaAux cs []

/-- `str.rstrip(',')`. -/
def rstripComma (cs : List Char) : List Char :=
  (cs.reverse.dropWhile (fun c => c = ',')).reverse

/-- `str.rstrip()` (whitespace). -/
def rstripWsL (cs : List Char) : List Char :=
  (cs.reverse.dropWhile isSpaceChar).reverse

/-- `sep.join(pieces)`. -/
def joinWith (sep : List Char) : List (List Char) → List Char
  | [] => []
  | [x] => x
  | x :: y :: rest => x ++ sep ++ joinWith sep (y :: rest)

def digitsToNat (ds : List Char) : Nat :=
  ds.foldl (fun n c => n * 10 + (c.toNat - '0'.toNat)) 0

/-- Python `int(str)` restricted to optionally signed decimal literals
with surrounding whitespace; anything else raises `ValueError` (`none`). -/
def pyIntParse (cs : List Char) : Option Int :=
  let t := rstripWsL (dropSpaces cs)
  match t with
  | '+' :: ds => if !ds.isEmpty && ds.all Char.isDigit then some (digitsToNat ds) else none
  | '-' :: ds => if !ds.isEmpty && ds.all Char.isDigit then some (-(digitsToNat ds : Int)) else none
  | ds => if !ds.isEmpty && ds.all Char.isDigit then some (digitsToNat ds) else none

/-! ### The data model built by `parse_schema` -/

/-- Python exceptions `parse_schema` can raise. -/
inductive PyErr where
  | keyError (key : String)
  | attributeError
  | typeError
  | valueError
  | indexError
deriving Repr, DecidableEq

/-- One column dictionary.  Optional fields model dict keys that the
source only sometimes inserts. -/
structure Column where
  name : String
  datatype : String
  arraysize : Option Int
  nullable : Bool
  defaultValue : Option String := none
  description : Option String := none
  unit : Option String := none
  ucd : Option String := none
deriving Repr, DecidableEq

/-- One index dictionary. -/
structure IndexInfo where
  type : String
  columns : String
deriving Repr, DecidableEq

/-- One table dictionary. -/
structure Table where
  engine : Option String := none
  description : Option String := none
  columns : List Column := []
  indexes : List IndexInfo := []
deriving Repr, DecidableEq

/-- The function-local state of `parse_schema`'s loop.  The source's
`column` variable is a reference to the most recently appended column of
the current table; it is reset to `None` whenever a table starts, so it
is modelled by the flag `hasColumn` (the current column, when the flag is
set, is the last element of the current table's column list).
`columnDescription` is the `column_description` capture flag. -/
structure PState where
  schema : List (String × Table)
  curTable : Option String
  hasColumn : Bool
  columnDescription : Bool
deriving Repr, DecidableEq

def initState : PState := ⟨[], none, false, false⟩

/-- The fresh `{}` dict passed to `setdefault`. -/
def emptyTable : Table :=
  { engine := none, description := none, columns := [], indexes := [] }

/-- First-match lookup in the insertion-ordered table dict. -/
def getTable : List (String × Table) → String → Option Table
  | [], _ => none
  | (k, t) :: rest, n => if k = n then some t else getTable rest n

/-- In-place update of the (unique) entry with key `n`, modelling
mutation through the aliased `table` reference. -/
def updateTable : List (String × Table) → String → (Table → Table) → List (String × Table)
  | [], _, _ => []
  | (k, t) :: rest, n, f =>
    if k = n then (k, f t) :: rest else (k, t) :: updateTable rest n f

/-- `schema.setdefault(table_name, {})`. -/
def setdefaultTable (s : List (String × Table)) (n : String) : List (String × Table) :=
  if (getTable s n).isSome then s else s ++ [(n, emptyTable)]

def lastColumn (t : Table) : Option Column := t.columns.getLast?

/-- Overwrite the last column (the one aliased by the source's `column`
variable). -/
def updateLast (f : Column → Column) : List Column → List Column
  | [] => []
  | [c] => [f c]
  | c :: d :: rest => c :: updateLast f (d :: rest)

def setLastColumn (t : Table) (c : Column) : Table :=
  { t with columns := updateLast (fun _ => c) t.columns }

/-! ### The helper functions of the source module -/

def MYSQL_TYPE_MAP : List (String × String) :=
  [("VARCHAR", "text"), ("TIMESTAMP", "timestamp"), ("BINARY", "binary"),
   ("TINYINT", "short"), ("BIGINT", "long"), ("BIT", "boolean"),
   ("FLOAT", "float"), ("INT", "int"), ("INTEGER", "int"),
   ("DOUBLE", "double"), ("CHAR", "text")]

def mapLookup (k : String) : List (String × String) → Option String
  | [] => none
  | (a, b) :: rest => if a = k then some b else mapLookup k rest

/-- `_isIndexDefinition`. -/
def _isIndexDefinition (c : String) : Bool :=
  ["PRIMARY", "KEY", "INDEX", "UNIQUE"].contains c

/-- The `t = "-" / "PRIMARY KEY" / "UNIQUE"` assignment in the index
branch of `parse_schema`. -/
def classifyIdxType (firstToken : String) : String :=
  if firstToken = "PRIMARY" then "PRIMARY KEY"
  else if firstToken = "UNIQUE" then "UNIQUE"
  else "-"

def _containsDescrTagStart (cs : List Char) : Bool := containsSub ("<descr>".toList) cs

def _containsDescrTagEnd (cs : List Char) : Bool := containsSub ("</descr>".toList) cs

/-- The list-comprehension cleanup in `_retrIdxColumns`: split the group
on commas, drop `ASC`/`DESC` tokens from each piece, rejoin each piece
with single spaces, join the pieces with `", "`. -/
def cleanedIdxCols (g : List Char) : String :=
  String.mk (joinWith (", ".toList)
    ((splitOnComma g).map (fun e =>
      joinWith [' ']
        ((pySplitL e).filter (fun w => !(w == "ASC".toList) && !(w == "DESC".toList))))))

/-- `_retrIdxColumns`: `.group(1)` on a failed search raises
`AttributeError`. -/
def _retrIdxColumns (cs : List Char) : Except PyErr String :=
  match idxColsSearch cs with
  | none => .error .attributeError
  | some g => .ok (cleanedIdxCols g)

/-- `_retrType`: second whitespace token, strip trailing commas, split
off a parenthesized size.  The source's `if match.group(1):` tests the
truthiness of the group STRING, so the group `"0"` is truthy and
`int("0") = 0` is kept as the size. -/
def _retrTypeL (cs : List Char) : Except PyErr (List Char × Option Int) :=
  match pySplitL cs with
  | _ :: t :: _ =>
    let dt := rstripComma t
    match sizeParamSearch dt with
    | some (i, g) =>
      if g.isEmpty then .ok (dt.take i, none)
      else
        match pyIntParse g with
        | some n => .ok (dt.take i, some n)
        | none => .error .valueError
    | none => .ok (dt, none)
  | _ => .error .indexError

/-- `_retrIsNotNull`: the literal substring `NOT NULL` occurs. -/
def _retrIsNotNull (cs : List Char) : Bool := containsSub ("NOT NULL".toList) cs

/-- Backtracking tail of `_defaultLine` after the literal `DEFAULT`:
`\s+(.+?)[\s,]` — some `b ≥ 1` whitespace chars, then `c ≥ 1` non-newline
chars, then one whitespace-or-comma terminator. -/
def defaultTailMatch (r : List Char) : Bool :=
  (List.range (r.length + 1)).any (fun b =>
    decide (1 ≤ b) && (r.take b).all isSpaceChar &&
    ((List.range (r.length + 1)).any (fun c =>
      decide (1 ≤ c) && decide (b + c < r.length) &&
      ((r.drop b).take c).all (fun ch => ch ≠ '\n') &&
      (match (r.drop (b + c)).head? with
       | some t => isSpaceChar t || t = ','
       | none => false))))

/-- Matcher at one position for
`_defaultLine = re.compile(r'\s+DEFAULT\s+(.+?)[\s,]')`. -/
def defaultAt (cs : List Char) : Bool :=
  let w := cs.takeWhile isSpaceChar
  let r := cs.dropWhile isSpaceChar
  !w.isEmpty && ("DEFAULT".toList).isPrefixOf r && defaultTailMatch (r.drop 7)

/-- `_defaultLine.search(fragment)` where `fragment` is a file line and
therefore carries its trailing newline (this is the only regex whose
outcome depends on it). -/
def defaultLineFound (cs : List Char) : Bool :=
  scanAny defaultAt (cs ++ ['\n'])

/-- The token-scanning loop of `_retrDefaultValue`: the token following
the first `DEFAULT` token, with trailing commas stripped; `None` when
`DEFAULT` is the last token. -/
def afterDefaultToken : List (List Char) → Option (List Char)
  | [] => none
  | w :: rest =>
    if w == ("DEFAULT".toList) then rest.head?.map rstripComma
    else afterDefaultToken rest

/-- `_retrDefaultValue`. -/
def retrDefaultValueL (cs : List Char) : Option (List Char) :=
  if defaultLineFound cs then afterDefaultToken (pySplitL cs) else none

/-! ### The `parse_schema` state machine -/

/-- The `CREATE TABLE` branch: `schema.setdefault(name, {})`,
`column = None`. -/
def processTableStart (st : PState) (name : String) : PState :=
  { st with schema := setdefaultTable st.schema name
          , curTable := some name
          , hasColumn := false }

/-- The `_tableEnd.match(line)` branch.  When the engine pattern matches
while no table is open, `table["engine"] = ...` indexes `None` and raises
`TypeError`. -/
def processTableEnd (st : PState) (cs : List Char) : Except PyErr PState :=
  match engineLineMatchL cs with
  | some eng =>
    match st.curTable with
    | none => .error .typeError
    | some n =>
      .ok { st with schema := updateTable st.schema n
                      (fun t => { t with engine := some (String.mk eng) })
                  , curTable := none }
  | none => .ok { st with curTable := none }

/-- `table["description"] = frag` (overwrite). -/
def setTableDescr (st : PState) (n : String) (frag : String) : PState :=
  { st with schema := updateTable st.schema n
              (fun t => { t with description := some frag }) }

/-- `table["description"] += frag` (guarded in the source by
`"description" in table`, so the key is always present). -/
def appendTableDescr (st : PState) (n : String) (frag : String) : PState :=
  { st with schema := updateTable st.schema n
              (fun t => { t with description := some (t.description.getD "" ++ frag) }) }

/-- The description part of the column-comment branch: returns the
updated column and capture flag.  Appending to a column whose
`description` key is absent raises `KeyError` (a stale
`column_description` flag can reach this). -/
def colCommentDescr (c : Column) (flag : Bool) (cs : List Char) :
    Except PyErr (Column × Bool) :=
  if _containsDescrTagStart cs then
    if _containsDescrTagEnd cs then
      match descrLineSearch cs with
      | none => .error .attributeError
      | some g => .ok ({ c with description := some (String.mk g) }, flag)
    else
      match descrStartSearchL cs with
      | none => .error .attributeError
      | some g => .ok ({ c with description := some (String.mk g) }, true)
  else if flag then
    if _containsDescrTagEnd cs then
      match descrEndSearchL cs with
      | none => .error .attributeError
      | some g =>
        match c.description with
        | none => .error (.keyError "description")
        | some d => .ok ({ c with description := some (d ++ String.mk (rstripWsL g)) }, false)
    else
      match c.description with
      | none => .error (.keyError "description")
      | some d =>
        .ok ({ c with description := some (d ++ String.mk ((descrMiddleSearch cs).getD [])) }, flag)
  else .ok (c, flag)

/-- The unconditional `<unit>` / `<ucd>` checks at the end of the
column-comment branch. -/
def colCommentTags (c : Column) (cs : List Char) : Column :=
  let c1 := match unitSearch cs with
            | some u => { c with unit := some (String.mk u) }
            | none => c
  match ucdSearch cs with
  | some u => { c1 with ucd := some (String.mk u) }
  | none => c1

/-- The comment-handling branch while a table is open. -/
def processComment (st : PState) (n : String) (cs : List Char) : Except PyErr PState :=
  if !st.hasColumn then
    -- table comment
    if _containsDescrTagStart cs then
      if _containsDescrTagEnd cs then
        match descrLineSearch cs with
        | none => .error .attributeError
        | some g => .ok (setTableDescr st n (String.mk g))
      else
        match descrStartSearchL cs with
        | none => .error .attributeError
        | some g => .ok (setTableDescr st n (String.mk g))
    else if ((getTable st.schema n).getD emptyTable).description.isSome then
      if _containsDescrTagEnd cs then
        match descrEndSearchL cs with
        | none => .error .attributeError
        | some g => .ok (appendTableDescr st n (String.mk (rstripWsL g)))
      else
        .ok (appendTableDescr st n (String.mk ((descrMiddleSearch cs).getD [])))
    else .ok st
  else
    -- column comment
    match lastColumn ((getTable st.schema n).getD emptyTable) with
    | none => .ok st
    | some c =>
      match colCommentDescr c st.columnDescription cs with
      | .error e => .error e
      | .ok (c', flag') =>
        .ok { st with schema := updateTable st.schema n
                        (fun t => setLastColumn t (colCommentTags c' cs))
                    , columnDescription := flag' }

/-- A column or index definition line while a table is open. -/
def processColumnLine (st : PState) (n : String) (cs : List Char) (ft : String) :
    Except PyErr PState :=
  if _isIndexDefinition ft then
    match _retrIdxColumns cs with
    | .error e => .error e
    | .ok colsStr =>
      .ok { st with schema := updateTable st.schema n
                      (fun t => { t with indexes :=
                        t.indexes ++ [{ type := classifyIdxType ft, columns := colsStr }] }) }
  else
    match _retrTypeL cs with
    | .error e => .error e
    | .ok (dtL, size) =>
      match mapLookup (String.mk (dtL.map Char.toUpper)) MYSQL_TYPE_MAP with
      | none => .error (.keyError (String.mk (dtL.map Char.toUpper)))
      | some canon =>
        let arraysize := if canon = "boolean" then none else size
        let col : Column :=
          { name := ft
          , datatype := canon
          , arraysize := arraysize
          , nullable := !_retrIsNotNull cs
          , defaultValue := (retrDefaultValueL cs).map String.mk }
        .ok { st with schema := updateTable st.schema n
                        (fun t => { t with columns := t.columns ++ [col] })
                    , hasColumn := true }

/-- The body of the `for line in schema_file` loop, one line. -/
def processLine (st : PState) (line : String) : Except PyErr PState :=
  let cs := line.data
  if (tableStartSearch cs).isSome && !isCommentLineL cs then
    .ok (processTableStart st (String.mk ((tableStartSearch cs).getD [])))
  else if tableEndMatchL cs then
    processTableEnd st cs
  else
    match st.curTable with
    | none => .ok st
    | some n =>
      match columnLineMatchL cs with
      | some ftL => processColumnLine st n cs (String.mk ftL)
      | none => if isCommentLineL cs then processComment st n cs else .ok st

/-- The whole loop. -/
def runLines (st : PState) : List String → Except PyErr PState
  | [] => .ok st
  | l :: rest =>
    match processLine st l with
    | .error e => .error e
    | .ok st' => runLines st' rest

/-- `parse_schema`, on the file's lines (without trailing newlines; see
the module comment). -/
def parse_schema (lines : List String) : Except PyErr (List (String × Table)) :=
  (runLines initState lines).map PState.schema

/-- `parse_schema` with the fate of the file handle made explicit: the
source calls `schema_file.close()` only after the loop, with no
`try/finally` and no `with` block, so an exception raised inside the loop
propagates to the caller without the handle being closed.  The boolean
records whether `close()` ran before control returned. -/
def parse_schema_with_close (lines : List String) :
    Except PyErr (List (String × Table)) × Bool :=
  match runLines initState lines with
  | .ok st => (.ok st.schema, true)
  | .error e => (.error e, false)

/-- Two successive calls of `parse_schema`, each opening the file afresh
and re-initialising every loop variable (`table`, `column`,
`column_description`, `schema` are all function-local in the source). -/
def parse_schema_twice (ls1 ls2 : List String) :
    Except PyErr (List (String × Table)) × Except PyErr (List (String × Table)) :=
  (parse_schema ls1, parse_schema ls2)

/-! ### Derived notions used to state the claims -/

/-- Insert a key at the back unless already present (the effect of
`setdefault` on the key sequence). -/
def addName (ks : List String) (n : String) : List String :=
  if n ∈ ks then ks else ks ++ [n]

def addNames : List String → List String → List String
  | ks, [] => ks
  | ks, n :: rest => addNames (addName ks n) rest

/-- The table name contributed by each line: group 1 of a `CREATE TABLE`
match on a non-comment line. -/
def extractTableNames : List String → List String
  | [] => []
  | l :: rest =>
    match (if isCommentLineL l.data then none else tableStartSearch l.data) with
    | some nm => String.mk nm :: extractTableNames rest
    | none => extractTableNames rest

/-- `_retrDescrMid` as a total string function (empty on a failed
search), on raw characters. -/
def midFragL (cs : List Char) : String :=
  String.mk ((descrMiddleSearch cs).getD [])

/-- `_retrDescrMid` of a line. -/
def midFrag (l : String) : String := midFragL l.data

/-- Concatenation of the `_retrDescrMid` fragments of a run of comment
lines. -/
def midsConcat : List String → String
  | [] => ""
  | l :: rest => midFrag l ++ midsConcat rest

/-- A column with its description overwritten. -/
def withDescr (c : Column) (d : String) : Column :=
  { c with description := some d }

/-- The state after the column-comment branch ran on column `c'` (before
tags) with resulting capture flag `fl`. -/
def colCommentState (st : PState) (t : String) (c' : Column) (cs : List Char) (fl : Bool) :
    PState :=
  { st with schema := updateTable st.schema t (fun tb => setLastColumn tb (colCommentTags c' cs))
          , columnDescription := fl }

/-- The description of the column aliased by the source's `column`
variable (the last column of table `t`). -/
def lastColDescr (st : PState) (t : String) : Option String :=
  match getTable st.schema t with
  | some tb =>
    match lastColumn tb with
    | some c => c.description
    | none => none
  | none => none

/-- The canonical datatypes (the range of `MYSQL_TYPE_MAP`). -/
def canonicalTypes : List String :=
  ["text", "timestamp", "binary", "short", "long", "boolean", "float", "int", "double"]

/-- Every column of every table carries a canonical datatype. -/
def schemaOk (s : List (String × Table)) : Prop :=
  ∀ p ∈ s, ∀ c ∈ p.2.columns, c.datatype ∈ canonicalTypes

/-- A comment line that neither opens nor closes a `<descr>` tag. -/
def plainCommentLine (l : String) : Bool :=
  isCommentLineL l.data && !_containsDescrTagStart l.data && !_containsDescrTagEnd l.data

/-- The fully commented-out `CREATE TABLE tDummy1 ... ) ENGINE=MyISAM;`
block of the repository's own test suite. -/
def commentedBlockEx : List String :=
  [ "--CREATE TABLE tDummy1"
  , "    -- <descr>This is dummy table 1.</descr>"
  , "--("
  , "--    id int,"
  , "--    PRIMARY KEY pk_t1_id (id),"
  , "--    INDEX idx_t1_s (s)"
  , "--) ENGINE=MyISAM;" ]

/-- A plain one-column table block. -/
def t3BlockEx : List String :=
  [ "CREATE TABLE t3 ("
  , "    id3 int"
  , ") ENGINE =InnoDB;" ]

/-- A column with a completed description, for exercising comment
handling. -/
def c7Col : Column :=
  { name := "x", datatype := "int", arraysize := none, nullable := true,
    description := some "d" }

/-- A state with one open table whose current column is `c7Col`, with the
capture flag cleared. -/
def c7State : PState :=
  ⟨[("t", { columns := [c7Col] })], some "t", true, false⟩

/-! ## Helper lemmas -/

theorem isCommentLineL_shape (cs : List Char) (h : isCommentLineL cs = true) :
    ∃ r, dropSpaces cs = '-' :: '-' :: r := by
  unfold isCommentLineL at h
  match hr : dropSpaces cs with
  | [] => rw [hr] at h; simp [List.isPrefixOf] at h
  | [a] => rw [hr] at h; simp [List.isPrefixOf] at h
  | a :: b :: r =>
    rw [hr] at h
    simp [List.isPrefixOf] at h
    obtain ⟨rfl, rfl⟩ := h
    exact ⟨r, rfl⟩

theorem comment_not_tableEnd (cs : List Char) (h : isCommentLineL cs = true) :
    tableEndMatchL cs = false := by
  obtain ⟨r, hr⟩ := isCommentLineL_shape cs h
  match cs with
  | [] => rfl
  | c :: rest =>
    by_cases hc : c = ')'
    · subst hc
      rw [show dropSpaces (')' :: rest) = ')' :: rest from by
        simp [dropSpaces, List.dropWhile, show isSpaceChar ')' = false from by decide]] at hr
      cases hr
    · simp [tableEndMatchL, hc]

theorem comment_not_columnLine (cs : List Char) (h : isCommentLineL cs = true) :
    columnLineMatchL cs = none := by
  obtain ⟨r, hr⟩ := isCommentLineL_shape cs h
  unfold columnLineMatchL
  rw [hr]
  simp [List.takeWhile_cons, show isWordChar '-' = false from by decide]

theorem updateTable_map_fst (s : List (String × Table)) (n : String) (f : Table → Table) :
    (updateTable s n f).map Prod.fst = s.map Prod.fst := by
  induction s with
  | nil => rfl
  | cons p rest ih =>
    obtain ⟨k, t⟩ := p
    by_cases hk : k = n <;> simp [updateTable, hk, ih]

theorem getTable_isSome_iff (s : List (String × Table)) (n : String) :
    (getTable s n).isSome = true ↔ n ∈ s.map Prod.fst := by
  induction s with
  | nil => simp [getTable]
  | cons p rest ih =>
    obtain ⟨k, t⟩ := p
    by_cases hk : k = n <;> simp [getTable, hk, ih]
    exact fun h => absurd h.symm hk

theorem setdefaultTable_map_fst (s : List (String × Table)) (n : String) :
    (setdefaultTable s n).map Prod.fst = addName (s.map Prod.fst) n := by
  unfold setdefaultTable addName
  by_cases h : n ∈ s.map Prod.fst
  · rw [if_pos ((getTable_isSome_iff s n).mpr h), if_pos h]
  · rw [if_neg (fun hs => h ((getTable_isSome_iff s n).mp hs)), if_neg h]
    simp

theorem getTable_updateTable (s : List (String × Table)) (n : String) (f : Table → Table) :
    getTable (updateTable s n f) n = (getTable s n).map f := by
  induction s with
  | nil => rfl
  | cons p rest ih =>
    obtain ⟨k, t⟩ := p
    by_cases hk : k = n <;> simp [updateTable, getTable, hk, ih]

theorem updateTable_comp (s : List (String × Table)) (n : String) (f g : Table → Table) :
    updateTable (updateTable s n f) n g = updateTable s n (fun t => g (f t)) := by
  induction s with
  | nil => rfl
  | cons p rest ih =>
    obtain ⟨k, t⟩ := p
    by_cases hk : k = n <;> simp [updateTable, hk, ih]

theorem updateTable_congr (s : List (String × Table)) (n : String) (f g : Table → Table)
    (h : ∀ t, f t = g t) : updateTable s n f = updateTable s n g := by
  induction s with
  | nil => rfl
  | cons p rest ih =>
    obtain ⟨k, t⟩ := p
    by_cases hk : k = n <;> simp [updateTable, hk, ih, h]

theorem updateTable_id (s : List (String × Table)) (n : String) (f : Table → Table)
    (tbl : Table) (hget : getTable s n = some tbl) (hf : f tbl = tbl) :
    updateTable s n f = s := by
  induction s with
  | nil => rfl
  | cons p rest ih =>
    obtain ⟨k, t⟩ := p
    by_cases hk : k = n
    · subst hk
      simp [getTable] at hget
      simp [updateTable, hget ▸ hf]
    · simp [getTable, hk] at hget
      simp [updateTable, hk, ih hget]

theorem runLines_append (st : PState) (xs ys : List String) :
    runLines st (xs ++ ys) =
      match runLines st xs with
      | .ok st' => runLines st' ys
      | .error e => .error e := by
  induction xs generalizing st with
  | nil => simp [runLines]
  | cons l rest ih =>
    simp only [List.cons_append, runLines]
    cases processLine st l with
    | error e => rfl
    | ok st' => exact ih st'

theorem processLine_comment_none (st : PState) (l : String)
    (h : isCommentLineL l.data = true) (hcur : st.curTable = none) :
    processLine st l = .ok st := by
  unfold processLine
  simp [h, comment_not_tableEnd _ h, hcur]

theorem processLine_comment_some (st : PState) (l : String) (n : String)
    (h : isCommentLineL l.data = true) (hcur : st.curTable = some n) :
    processLine st l = processComment st n l.data := by
  unfold processLine
  simp [h, comment_not_tableEnd _ h, hcur, comment_not_columnLine _ h]

theorem processComment_ok (st : PState) (n : String) (cs : List Char) (st' : PState)
    (h : processComment st n cs = .ok st') :
    st'.schema.map Prod.fst = st.schema.map Prod.fst ∧
    st'.curTable = st.curTable ∧ st'.hasColumn = st.hasColumn := by
  unfold processComment setTableDescr appendTableDescr at h
  repeat' split at h
  all_goals cases h
  all_goals simp [updateTable_map_fst]

theorem processLine_comment_inert (st st' : PState) (l : String)
    (h : isCommentLineL l.data = true) (hok : processLine st l = .ok st') :
    st'.schema.map Prod.fst = st.schema.map Prod.fst ∧ st'.curTable = st.curTable := by
  cases hcur : st.curTable with
  | none =>
    rw [processLine_comment_none st l h hcur] at hok
    cases hok
    exact ⟨rfl, hcur⟩
  | some n =>
    rw [processLine_comment_some st l n h hcur] at hok
    obtain ⟨h1, h2, _⟩ := processComment_ok st n l.data st' hok
    exact ⟨h1, h2.trans hcur⟩

theorem runLines_comment_block (block : List String) (st : PState)
    (hall : block.all (fun l => isCommentLineL l.data) = true)
    (hcur : st.curTable = none) :
    runLines st block = .ok st := by
  induction block with
  | nil => rfl
  | cons l rest ih =>
    simp only [List.all_cons, Bool.and_eq_true] at hall
    simp only [runLines, processLine_comment_none st l hall.1 hcur]
    exact ih hall.2

theorem runLines_append_ok (st st' : PState) (xs ys : List String)
    (h : runLines st xs = .ok st') : runLines st (xs ++ ys) = runLines st' ys := by
  rw [runLines_append, h]

theorem processTableEnd_ok (st : PState) (cs : List Char) (st' : PState)
    (h : processTableEnd st cs = .ok st') :
    st'.schema.map Prod.fst = st.schema.map Prod.fst := by
  unfold processTableEnd at h
  repeat' split at h
  all_goals cases h
  all_goals simp [updateTable_map_fst]

theorem processColumnLine_ok (st : PState) (n : String) (cs : List Char) (ft : String)
    (st' : PState) (h : processColumnLine st n cs ft = .ok st') :
    st'.schema.map Prod.fst = st.schema.map Prod.fst := by
  unfold processColumnLine at h
  repeat' split at h
  all_goals cases h
  all_goals simp [updateTable_map_fst]

theorem processLine_keys (st : PState) (l : String) (st' : PState)
    (h : processLine st l = .ok st') :
    st'.schema.map Prod.fst =
      (match (if isCommentLineL l.data then none else tableStartSearch l.data) with
       | some nm => addName (st.schema.map Prod.fst) (String.mk nm)
       | none => st.schema.map Prod.fst) := by
  by_cases hc : isCommentLineL l.data = true
  · simp only [hc, if_true]
    exact (processLine_comment_inert st st' l hc h).1
  · have hc' : isCommentLineL l.data = false := by
      revert hc; cases isCommentLineL l.data <;> simp
    simp only [hc', Bool.false_eq_true, if_false]
    simp only [processLine, hc', Bool.not_false, Bool.and_true] at h
    cases hts : tableStartSearch l.data with
    | some nm =>
      rw [hts] at h
      simp only [hts, Option.isSome_some, if_true] at h ⊢
      cases h
      simp [processTableStart, setdefaultTable_map_fst]
    | none =>
      rw [hts] at h
      simp only [hts, Option.isSome_none, Bool.false_eq_true, if_false] at h ⊢
      split at h
      · exact processTableEnd_ok st l.data st' h
      · split at h
        · cases h; rfl
        · rename_i n _
          split at h
          · exact processColumnLine_ok st n l.data _ st' h
          · cases h; rfl

theorem runLines_keys (ls : List String) : ∀ (st st' : PState),
    runLines st ls = .ok st' →
    st'.schema.map Prod.fst = addNames (st.schema.map Prod.fst) (extractTableNames ls) := by
  induction ls with
  | nil => intro st st' h; cases h; rfl
  | cons l rest ih =>
    intro st st' h
    unfold runLines at h
    cases hpl : processLine st l with
    | error e => rw [hpl] at h; cases h
    | ok st1 =>
      rw [hpl] at h
      have hk := processLine_keys st l st1 hpl
      unfold extractTableNames
      cases hm : (if isCommentLineL l.data then none else tableStartSearch l.data) with
      | some nm =>
        rw [hm] at hk
        simp only [addNames]
        rw [ih st1 st' h, hk]
      | none =>
        rw [hm] at hk
        rw [ih st1 st' h, hk]

/-! ## Claim theorems -/

/-- C1: a fully commented-out `CREATE TABLE ... ) ENGINE=...;` block
contributes no entry to the output of `parse_schema`: (1) inserting such
a block outside any open table leaves the parse result unchanged, so none
of its names become keys; (2) a comment line can never add a table key
nor open or close a table (`curTable` and the key sequence are
preserved). -/
theorem c1_commented_block_contributes_no_table :
    (∀ (pre block post : List String) (st : PState),
       block.all (fun l => isCommentLineL l.data) = true →
       runLines initState pre = .ok st → st.curTable = none →
       parse_schema (pre ++ block ++ post) = parse_schema (pre ++ post)) ∧
    (∀ (st st' : PState) (l : String), isCommentLineL l.data = true →
       processLine st l = .ok st' →
       st'.schema.map Prod.fst = st.schema.map Prod.fst ∧
       st'.curTable = st.curTable) := by
  constructor
  · intro pre block post st hall hpre hcur
    unfold parse_schema
    rw [List.append_assoc,
        runLines_append_ok initState st pre (block ++ post) hpre,
        runLines_append_ok st st block post (runLines_comment_block block st hall hcur),
        runLines_append_ok initState st pre post hpre]
  · intro st st' l h hok
    exact processLine_comment_inert st st' l h hok

/-- Witness for C1: the commented-out `tDummy1` block of the repository's
test suite, placed before a real table, changes nothing. -/
theorem c1_witness :
    parse_schema ([] ++ commentedBlockEx ++ t3BlockEx) = parse_schema ([] ++ t3BlockEx) :=
  c1_commented_block_contributes_no_table.1 [] commentedBlockEx t3BlockEx initState
    (by decide) rfl rfl

/-- C2: the key sequence of the mapping returned by `parse_schema` is
exactly the sequence of table names found after `CREATE TABLE ` on
non-comment lines, with recurrences of the same name collapsed into the
single entry created at its first occurrence (`setdefault` semantics), so
N well-formed blocks with distinct names give exactly N entries. -/
theorem c2_output_keys_are_table_names (lines : List String)
    (schema : List (String × Table)) (h : parse_schema lines = .ok schema) :
    schema.map Prod.fst = addNames [] (extractTableNames lines) := by
  unfold parse_schema at h
  cases hr : runLines initState lines with
  | error e => rw [hr] at h; cases h
  | ok st =>
    rw [hr] at h
    simp only [Except.map] at h
    cases h
    exact runLines_keys lines initState st hr

/-- Witness for C2: three blocks, the third reusing the name `t1`,
produce exactly the two keys `t1`, `t2`. -/
theorem c2_witness :
    parse_schema ["CREATE TABLE t1 (", ") ENGINE=MyISAM;", "CREATE TABLE t2 (", ");",
                  "CREATE TABLE t1 (", ");"] =
      .ok [("t1", { engine := some "MyISAM" }), ("t2", emptyTable)] ∧
    [("t1", ({ engine := some "MyISAM" } : Table)), ("t2", emptyTable)].map Prod.fst =
      addNames [] (extractTableNames
        ["CREATE TABLE t1 (", ") ENGINE=MyISAM;", "CREATE TABLE t2 (", ");",
         "CREATE TABLE t1 (", ");"]) :=
  ⟨rfl, c2_output_keys_are_table_names _ _ rfl⟩

/-- C3: contrary to the claim (and to the source's own
`# ignore match.group(1) == 0` comment), `FLOAT(0)` does NOT canonicalize
with an absent arraysize: `if match.group(1):` tests the truthiness of
the group string `"0"`, which is a non-empty string and hence truthy, so
the parsed size `0` is kept; bare `FLOAT` does yield `none`. -/
theorem c3_float0_keeps_arraysize_zero :
    parse_schema ["CREATE TABLE t (", "    f1 FLOAT(0),", "    f2 FLOAT", ");"] =
      .ok [("t", { columns :=
        [ { name := "f1", datatype := "float", arraysize := some 0, nullable := true }
        , { name := "f2", datatype := "float", arraysize := none, nullable := true } ] })] ∧
    (some (0 : Int) ≠ (none : Option Int)) :=
  ⟨rfl, by simp⟩

/-- C5 counterexample: an unknown raw type (`BLOB`) makes `parse_schema`
fail with the GENERIC mapping lookup failure — `KeyError` from
`MYSQL_TYPE_MAP[datatype.upper()]` — not with a distinct "unknown type"
error as the claim states. -/
theorem c5_counterexample :
    parse_schema ["CREATE TABLE tk (", "    x BLOB,", ");"] =
      .error (PyErr.keyError "BLOB") := rfl

/-- C6: the input file handle is NOT closed on the error exit path:
`schema_file.close()` sits after the loop with no `try/finally`, so the
`KeyError` raised mid-parse propagates with the handle still open
(`false` in the second component). -/
theorem c6_file_not_closed_on_error :
    parse_schema_with_close ["CREATE TABLE tb (", "    x BLOB,", ");"] =
      (.error (PyErr.keyError "BLOB"), false) := rfl

/-- C7 counterexample: for the TABLE target there is no capture flag;
after a completed single-line `<descr>...</descr>` the next comment line
without any `<descr>` marker is still appended to the table description
(`"Done."` becomes `"Done. extra note"`), refuting the claim for the
table target. -/
theorem c7_counterexample :
    parse_schema ["CREATE TABLE t1", "    -- <descr>Done.</descr>", "    -- extra note"] =
      .ok [("t1", { description := some "Done. extra note" })] ∧
    some "Done. extra note" ≠ some "Done." :=
  ⟨rfl, by simp⟩

/-- C9: `parse_schema` is a pure, deterministic function of the input
lines: two successive calls on the same input agree, the second call of
any two-call sequence depends only on its own input, and every call runs
the loop from the same freshly initialised local state (`initState`). -/
theorem c9_parse_schema_pure (ls1 ls2 : List String) :
    (parse_schema_twice ls2 ls2).1 = (parse_schema_twice ls2 ls2).2 ∧
    (parse_schema_twice ls1 ls2).2 = parse_schema ls2 ∧
    parse_schema ls2 = (runLines initState ls2).map PState.schema :=
  ⟨rfl, rfl, rfl⟩

/-- C10: an index-classified line with no parenthesized column list
(`PRIMARY KEY,`) aborts the whole parse with the `AttributeError` raised
by `_retrIdxColumns` calling `.group(1)` on a failed search. -/
theorem c10_index_without_parens_raises :
    parse_schema ["CREATE TABLE tx (", "    PRIMARY KEY,", ");"] =
      .error PyErr.attributeError := rfl

/-- C8: a line inside a table whose leading identifier is `PRIMARY`,
`KEY`, `INDEX` or `UNIQUE` appends an index record (no column, no other
state change): its type is given by `classifyIdxType` (`PRIMARY` →
`PRIMARY KEY`, `UNIQUE` → `UNIQUE`, `KEY`/`INDEX` → `-`) and its columns
string is `cleanedIdxCols` of the first parenthesized expression (split
on commas, `ASC`/`DESC` tokens removed, joined with `", "`). -/
theorem c8_index_line_appends_index (st : PState) (t : String) (line : String)
    (ftL g : List Char)
    (hcur : st.curTable = some t)
    (hstart : tableStartSearch line.data = none)
    (hend : tableEndMatchL line.data = false)
    (hcol : columnLineMatchL line.data = some ftL)
    (hidx : _isIndexDefinition (String.mk ftL) = true)
    (hg : idxColsSearch line.data = some g) :
    processLine st line = .ok { st with schema := updateTable st.schema t (fun tb =>
      { tb with indexes := tb.indexes ++
          [{ type := classifyIdxType (String.mk ftL), columns := cleanedIdxCols g }] }) } := by
  simp only [processLine, hstart, Option.isSome_none, Bool.false_and, Bool.false_eq_true,
    if_false, hend, hcur, hcol, processColumnLine, hidx, if_true, _retrIdxColumns, hg]

/-- Witness for C8: `PRIMARY KEY pk_t1_id (id)` yields type `PRIMARY KEY`
with columns `id`; `UNIQUE UQ_x(xx DESC, yy)` yields type `UNIQUE` with
columns `xx, yy`. -/
theorem c8_witness :
    processLine ⟨[("t1", emptyTable)], some "t1", false, false⟩
        "    PRIMARY KEY pk_t1_id (id)," =
      .ok ⟨[("t1", { indexes := [{ type := "PRIMARY KEY", columns := "id" }] })],
           some "t1", false, false⟩ ∧
    processLine ⟨[("t1", emptyTable)], some "t1", false, false⟩
        "    UNIQUE UQ_x(xx DESC, yy)" =
      .ok ⟨[("t1", { indexes := [{ type := "UNIQUE", columns := "xx, yy" }] })],
           some "t1", false, false⟩ := by
  constructor
  · exact (c8_index_line_appends_index ⟨[("t1", emptyTable)], some "t1", false, false⟩ "t1"
      "    PRIMARY KEY pk_t1_id (id)," ("PRIMARY".toList) ("id".toList)
      rfl rfl rfl rfl rfl rfl).trans rfl
  · exact (c8_index_line_appends_index ⟨[("t1", emptyTable)], some "t1", false, false⟩ "t1"
      "    UNIQUE UQ_x(xx DESC, yy)" ("UNIQUE".toList) ("xx DESC, yy".toList)
      rfl rfl rfl rfl rfl rfl).trans rfl

theorem colCommentTags_description (c : Column) (cs : List Char) :
    (colCommentTags c cs).description = c.description := by
  unfold colCommentTags
  repeat' split
  all_goals rfl

theorem colCommentTags_datatype (c : Column) (cs : List Char) :
    (colCommentTags c cs).datatype = c.datatype := by
  unfold colCommentTags
  repeat' split
  all_goals rfl

theorem colCommentDescr_datatype (c : Column) (flag : Bool) (cs : List Char)
    (p : Column × Bool) (h : colCommentDescr c flag cs = .ok p) :
    p.1.datatype = c.datatype := by
  unfold colCommentDescr at h
  repeat' split at h
  all_goals cases h
  all_goals rfl

theorem updateLast_getLast? (f : Column → Column) : ∀ (l : List Column),
    (updateLast f l).getLast? = l.getLast?.map f
  | [] => rfl
  | [a] => rfl
  | a :: b :: l => by
    have ih := updateLast_getLast? f (b :: l)
    rw [show updateLast f (a :: b :: l) = a :: updateLast f (b :: l) from rfl,
        List.getLast?_cons_cons, ← ih]
    cases hl : updateLast f (b :: l) with
    | nil => cases l <;> simp [updateLast] at hl
    | cons x xs => rw [List.getLast?_cons_cons]

theorem getLast?_mem_self : ∀ (l : List Column) (c : Column), l.getLast? = some c → c ∈ l
  | [], _, h => by cases h
  | [a], c, h => by
    rw [List.getLast?_singleton] at h
    cases h
    exact List.mem_singleton_self a
  | _ :: b :: l, c, h => by
    rw [List.getLast?_cons_cons] at h
    exact List.mem_cons_of_mem _ (getLast?_mem_self (b :: l) c h)

theorem mem_updateLast (f : Column → Column) : ∀ (l : List Column) (x : Column),
    x ∈ updateLast f l → x ∈ l ∨ ∃ y ∈ l, x = f y
  | [], _, h => by cases h
  | [a], x, h => by
    rw [show updateLast f [a] = [f a] from rfl] at h
    rcases List.mem_singleton.mp h with rfl
    exact Or.inr ⟨a, List.mem_singleton_self a, rfl⟩
  | a :: b :: l, x, h => by
    rw [show updateLast f (a :: b :: l) = a :: updateLast f (b :: l) from rfl] at h
    rcases List.mem_cons.mp h with rfl | h'
    · exact Or.inl (List.mem_cons_self _ _)
    · rcases mem_updateLast f (b :: l) x h' with h'' | ⟨y, hy, hxy⟩
      · exact Or.inl (List.mem_cons_of_mem _ h'')
      · exact Or.inr ⟨y, List.mem_cons_of_mem _ hy, hxy⟩

theorem processLine_column_comment (st : PState) (t : String) (tbl : Table)
    (c c' : Column) (fl : Bool) (line : String)
    (hcur : st.curTable = some t) (hcol : st.hasColumn = true)
    (hget : getTable st.schema t = some tbl) (hlast : lastColumn tbl = some c)
    (hcomment : isCommentLineL line.data = true)
    (hres : colCommentDescr c st.columnDescription line.data = .ok (c', fl)) :
    processLine st line = .ok (colCommentState st t c' line.data fl) := by
  rw [processLine_comment_some st line t hcomment hcur]
  unfold processComment colCommentState
  rw [hcol]
  simp only [Bool.not_true, Bool.false_eq_true, if_false, hget, Option.getD_some, hlast, hres]

/-- C7 amended: the claim holds for the COLUMN target (the
`column_description` flag guards appending): once the flag is cleared, a
comment line without a fresh `<descr>` marker leaves the current column's
description unchanged (only `unit`/`ucd` may be set).  For the TABLE
target there is no flag and further comment lines ARE appended (see the
counterexample). -/
theorem c7_completed_descr_column_stable (st : PState) (t : String) (tbl : Table)
    (c : Column) (line : String)
    (hcur : st.curTable = some t) (hcol : st.hasColumn = true)
    (hget : getTable st.schema t = some tbl) (hlast : lastColumn tbl = some c)
    (hflag : st.columnDescription = false)
    (hcomment : isCommentLineL line.data = true)
    (hnostart : _containsDescrTagStart line.data = false) :
    processLine st line = .ok (colCommentState st t c line.data false) ∧
    (colCommentTags c line.data).description = c.description := by
  refine ⟨?_, colCommentTags_description c line.data⟩
  have hres : colCommentDescr c st.columnDescription line.data = .ok (c, false) := by
    rw [hflag]
    unfold colCommentDescr
    rw [hnostart]
    simp
  exact processLine_column_comment st t tbl c c false line hcur hcol hget hlast hcomment hres

/-- Witness for C7: a column with completed description `"d"` is left
untouched by a later plain comment line. -/
theorem c7_witness :
    processLine c7State "    -- trailing note" = .ok c7State :=
  (c7_completed_descr_column_stable c7State "t" { columns := [c7Col] } c7Col
    "    -- trailing note" rfl rfl rfl rfl rfl rfl rfl).1.trans rfl

theorem mapLookup_mem (k v : String) : ∀ (m : List (String × String)),
    mapLookup k m = some v → v ∈ m.map Prod.snd
  | [], h => by cases h
  | (a, b) :: rest, h => by
    by_cases hk : a = k
    · rw [mapLookup, if_pos hk] at h
      cases h
      exact List.mem_cons_self _ _
    · rw [mapLookup, if_neg hk] at h
      exact List.mem_cons_of_mem _ (mapLookup_mem k v rest h)

theorem mysql_values_canonical (v : String) (h : v ∈ MYSQL_TYPE_MAP.map Prod.snd) :
    v ∈ canonicalTypes := by
  simp only [MYSQL_TYPE_MAP, List.map_cons, List.map_nil, List.mem_cons,
    List.not_mem_nil, or_false] at h
  rcases h with rfl | rfl | rfl | rfl | rfl | rfl | rfl | rfl | rfl | rfl | rfl <;>
    simp [canonicalTypes]

theorem getTable_mem (s : List (String × Table)) (n : String) (tbl : Table)
    (h : getTable s n = some tbl) : (n, tbl) ∈ s := by
  induction s with
  | nil => cases h
  | cons q rest ih =>
    obtain ⟨k, t⟩ := q
    unfold getTable at h
    by_cases hk : k = n
    · rw [if_pos hk] at h
      cases h
      subst hk
      exact List.mem_cons_self _ _
    · rw [if_neg hk] at h
      exact List.mem_cons_of_mem _ (ih h)

theorem schemaOk_updateTable (s : List (String × Table)) (n : String) (f : Table → Table)
    (hs : schemaOk s)
    (hf : ∀ t, (∀ c ∈ t.columns, c.datatype ∈ canonicalTypes) →
      ∀ c ∈ (f t).columns, c.datatype ∈ canonicalTypes) :
    schemaOk (updateTable s n f) := by
  induction s with
  | nil => intro p hp; cases hp
  | cons q rest ih =>
    obtain ⟨k, t⟩ := q
    intro p hp
    unfold updateTable at hp
    by_cases hk : k = n
    · rw [if_pos hk] at hp
      rcases List.mem_cons.mp hp with rfl | hp'
      · exact hf t (hs (k, t) (List.mem_cons_self _ _))
      · exact hs p (List.mem_cons_of_mem _ hp')
    · rw [if_neg hk] at hp
      rcases List.mem_cons.mp hp with rfl | hp'
      · exact hs (k, t) (List.mem_cons_self _ _)
      · exact ih (fun q hq => hs q (List.mem_cons_of_mem _ hq)) p hp'

theorem schemaOk_setdefault (s : List (String × Table)) (n : String)
    (hs : schemaOk s) : schemaOk (setdefaultTable s n) := by
  unfold setdefaultTable
  split
  · exact hs
  · intro p hp
    rcases List.mem_append.mp hp with hp' | hp'
    · exact hs p hp'
    · rcases List.mem_singleton.mp hp' with rfl
      intro c hc
      cases hc

theorem processTableEnd_schemaOk (st : PState) (cs : List Char) (st' : PState)
    (h : processTableEnd st cs = .ok st') (hs : schemaOk st.schema) :
    schemaOk st'.schema := by
  unfold processTableEnd at h
  repeat' split at h
  all_goals cases h
  all_goals try exact hs
  all_goals exact schemaOk_updateTable _ _ _ hs (fun t ht c hc => ht c hc)

theorem processColumnLine_schemaOk (st : PState) (n : String) (cs : List Char) (ft : String)
    (st' : PState) (h : processColumnLine st n cs ft = .ok st') (hs : schemaOk st.schema) :
    schemaOk st'.schema := by
  unfold processColumnLine at h
  split at h
  · -- index line
    cases hri : _retrIdxColumns cs with
    | error e => rw [hri] at h; cases h
    | ok colsStr =>
      rw [hri] at h
      cases h
      exact schemaOk_updateTable _ _ _ hs (fun t ht c hc => ht c hc)
  · cases hty : _retrTypeL cs with
    | error e => simp only [hty] at h; cases h
    | ok p =>
      obtain ⟨dtL, size⟩ := p
      simp only [hty] at h
      cases hlk : mapLookup (String.mk (dtL.map Char.toUpper)) MYSQL_TYPE_MAP with
      | none => simp only [hlk] at h; cases h
      | some canon =>
        simp only [hlk] at h
        cases h
        apply schemaOk_updateTable _ _ _ hs
        intro t ht c hc
        rcases List.mem_append.mp hc with hc' | hc'
        · exact ht c hc'
        · rcases List.mem_singleton.mp hc' with rfl
          exact mysql_values_canonical canon (mapLookup_mem _ _ _ hlk)

theorem processComment_schemaOk (st : PState) (n : String) (cs : List Char) (st' : PState)
    (h : processComment st n cs = .ok st') (hs : schemaOk st.schema) :
    schemaOk st'.schema := by
  unfold processComment at h
  by_cases hcol : st.hasColumn
  · rw [hcol] at h
    simp only [Bool.not_true, Bool.false_eq_true, if_false] at h
    cases hlast : lastColumn ((getTable st.schema n).getD emptyTable) with
    | none => simp only [hlast] at h; cases h; exact hs
    | some c =>
      simp only [hlast] at h
      have hcanon : c.datatype ∈ canonicalTypes := by
        cases hget : getTable st.schema n with
        | none =>
          rw [hget] at hlast
          simp [Option.getD, lastColumn, emptyTable, List.getLast?] at hlast
        | some tbl =>
          rw [hget] at hlast
          simp only [Option.getD_some] at hlast
          exact hs (n, tbl) (getTable_mem _ _ _ hget) c
            (getLast?_mem_self tbl.columns c hlast)
      cases hcd : colCommentDescr c st.columnDescription cs with
      | error e => simp only [hcd] at h; cases h
      | ok p =>
        obtain ⟨c', fl⟩ := p
        simp only [hcd] at h
        cases h
        apply schemaOk_updateTable _ _ _ hs
        intro t ht x hx
        rcases mem_updateLast _ t.columns x hx with hmem | ⟨y, _, rfl⟩
        · exact ht x hmem
        · rw [colCommentTags_datatype,
             colCommentDescr_datatype c st.columnDescription cs (c', fl) hcd]
          exact hcanon
  · rw [show st.hasColumn = false by revert hcol; cases st.hasColumn <;> simp] at h
    simp only [Bool.not_false, if_true] at h
    repeat' split at h
    all_goals cases h
    all_goals try exact hs
    all_goals
      exact schemaOk_updateTable _ _ _ hs (fun t ht c hc => ht c hc)

theorem processLine_schemaOk (st : PState) (l : String) (st' : PState)
    (h : processLine st l = .ok st') (hs : schemaOk st.schema) : schemaOk st'.schema := by
  simp only [processLine] at h
  split at h
  · cases h
    exact schemaOk_setdefault _ _ hs
  · split at h
    · exact processTableEnd_schemaOk st l.data st' h hs
    · split at h
      · cases h; exact hs
      · rename_i n _
        split at h
        · exact processColumnLine_schemaOk st n l.data _ st' h hs
        · split at h
          · exact processComment_schemaOk st n l.data st' h hs
          · cases h; exact hs

theorem runLines_schemaOk (ls : List String) : ∀ (st st' : PState),
    runLines st ls = .ok st' → schemaOk st.schema → schemaOk st'.schema := by
  induction ls with
  | nil => intro st st' h hs; cases h; exact hs
  | cons l rest ih =>
    intro st st' h hs
    unfold runLines at h
    cases hpl : processLine st l with
    | error e => rw [hpl] at h; cases h
    | ok st1 =>
      rw [hpl] at h
      exact ih st1 st' h (processLine_schemaOk st l st1 hpl hs)

/-- C5 (amended): a column line whose raw base type, uppercased, is not a
key of `MYSQL_TYPE_MAP` makes `parse_schema` abort with the GENERIC
mapping lookup failure — the `KeyError` of `MYSQL_TYPE_MAP[...]` carrying
the uppercased raw type — rather than a distinct "unknown type" error;
and no successful parse ever emits a column whose datatype lies outside
the canonical set. -/
theorem c5_unknown_type_keyerror :
    (∀ (st : PState) (t : String) (line : String) (dt : List Char) (size : Option Int),
       st.curTable = some t →
       tableStartSearch line.data = none →
       tableEndMatchL line.data = false →
       (∃ ftL, columnLineMatchL line.data = some ftL ∧
          _isIndexDefinition (String.mk ftL) = false) →
       _retrTypeL line.data = .ok (dt, size) →
       mapLookup (String.mk (dt.map Char.toUpper)) MYSQL_TYPE_MAP = none →
       processLine st line = .error (.keyError (String.mk (dt.map Char.toUpper)))) ∧
    (∀ (lines : List String) (schema : List (String × Table)),
       parse_schema lines = .ok schema → schemaOk schema) := by
  constructor
  · rintro st t line dt size hcur hstart hend ⟨ftL, hcol, hidx⟩ htype hlook
    simp only [processLine, hstart, Option.isSome_none, Bool.false_and, Bool.false_eq_true,
      if_false, hend, hcur, hcol, processColumnLine, hidx, htype, hlook]
  · intro lines schema h
    unfold parse_schema at h
    cases hr : runLines initState lines with
    | error e => rw [hr] at h; cases h
    | ok st =>
      rw [hr] at h
      simp only [Except.map] at h
      cases h
      exact runLines_schemaOk lines initState st hr (fun p hp => by cases hp)

theorem string_append_empty (s : String) : s ++ "" = s := by
  obtain ⟨d⟩ := s
  show String.mk (d ++ []) = String.mk d
  rw [List.append_nil]

theorem string_append_assoc (a b c : String) : a ++ b ++ c = a ++ (b ++ c) := by
  obtain ⟨la⟩ := a
  obtain ⟨lb⟩ := b
  obtain ⟨lc⟩ := c
  show String.mk (la ++ lb ++ lc) = String.mk (la ++ (lb ++ lc))
  rw [List.append_assoc]

theorem pstate_schema_congr (st : PState) (u v : List (String × Table)) (h : u = v) :
    ({ st with schema := u } : PState) = { st with schema := v } := by rw [h]

theorem runLines_cons_ok (st st1 : PState) (l : String) (ls : List String)
    (h : processLine st l = .ok st1) : runLines st (l :: ls) = runLines st1 ls := by
  show (match processLine st l with
        | .error e => Except.error e
        | .ok st2 => runLines st2 ls) = runLines st1 ls
  rw [h]

theorem step_table_descr_open (st : PState) (t : String) (line : String) (s0 : List Char)
    (hcur : st.curTable = some t) (hcol : st.hasColumn = false)
    (hcomment : isCommentLineL line.data = true)
    (hstart : _containsDescrTagStart line.data = true)
    (hnoend : _containsDescrTagEnd line.data = false)
    (hs0 : descrStartSearchL line.data = some s0) :
    processLine st line = .ok (setTableDescr st t (String.mk s0)) := by
  rw [processLine_comment_some st line t hcomment hcur]
  unfold processComment
  rw [hcol]
  simp only [Bool.not_false, if_true, hstart, hnoend, Bool.false_eq_true, if_false, hs0]

theorem step_table_descr_mid (st : PState) (t : String) (line : String) (tbl : Table)
    (hcur : st.curTable = some t) (hcol : st.hasColumn = false)
    (hcomment : isCommentLineL line.data = true)
    (hnostart : _containsDescrTagStart line.data = false)
    (hget : getTable st.schema t = some tbl)
    (hdesc : tbl.description.isSome = true)
    (hnoend : _containsDescrTagEnd line.data = false) :
    processLine st line = .ok (appendTableDescr st t (midFrag line)) := by
  rw [processLine_comment_some st line t hcomment hcur]
  unfold processComment midFrag midFragL
  rw [hcol]
  simp only [Bool.not_false, if_true, hnostart, Bool.false_eq_true, if_false, hget,
    Option.getD_some, hdesc, hnoend]

theorem step_table_descr_close (st : PState) (t : String) (line : String) (tbl : Table)
    (g : List Char)
    (hcur : st.curTable = some t) (hcol : st.hasColumn = false)
    (hcomment : isCommentLineL line.data = true)
    (hnostart : _containsDescrTagStart line.data = false)
    (hget : getTable st.schema t = some tbl)
    (hdesc : tbl.description.isSome = true)
    (hend : _containsDescrTagEnd line.data = true)
    (hg : descrEndSearchL line.data = some g) :
    processLine st line = .ok (appendTableDescr st t (String.mk (rstripWsL g))) := by
  rw [processLine_comment_some st line t hcomment hcur]
  unfold processComment
  rw [hcol]
  simp only [Bool.not_false, if_true, hnostart, Bool.false_eq_true, if_false, hget,
    Option.getD_some, hdesc, hend, hg]

/-- Appending a fragment to a table description that the previous update
set to `acc` yields the single update setting it to `acc ++ frag`. -/
theorem append_after_set (st : PState) (t : String) (acc frag : String) :
    appendTableDescr (setTableDescr st t acc) t frag = setTableDescr st t (acc ++ frag) := by
  unfold appendTableDescr setTableDescr
  refine pstate_schema_congr st _ _ ?_
  rw [updateTable_comp]
  exact updateTable_congr _ _ _ _ (fun tb => rfl)

theorem runLines_table_mids (t : String) (mids : List String) :
    ∀ (st : PState) (tbl : Table) (acc : String),
    st.curTable = some t → st.hasColumn = false →
    getTable st.schema t = some tbl →
    mids.all plainCommentLine = true →
    runLines (setTableDescr st t acc) mids =
      .ok (setTableDescr st t (acc ++ midsConcat mids)) := by
  induction mids with
  | nil =>
    intro st tbl acc _ _ _ _
    unfold setTableDescr
    refine congrArg Except.ok (pstate_schema_congr st _ _ ?_)
    exact updateTable_congr _ _ _ _ (fun tb => by
      rw [show midsConcat [] = "" from rfl, string_append_empty])
  | cons m rest ih =>
    intro st tbl acc hcur hcol hget hall
    rw [List.all_cons, Bool.and_eq_true] at hall
    obtain ⟨hm, hrest⟩ := hall
    unfold plainCommentLine at hm
    rw [Bool.and_eq_true, Bool.and_eq_true] at hm
    obtain ⟨⟨hm1, hm2⟩, hm3⟩ := hm
    have hm2' : _containsDescrTagStart m.data = false := by
      revert hm2; cases _containsDescrTagStart m.data <;> simp
    have hm3' : _containsDescrTagEnd m.data = false := by
      revert hm3; cases _containsDescrTagEnd m.data <;> simp
    have hget1 : getTable (setTableDescr st t acc).schema t =
        some { tbl with description := some acc } := by
      show getTable (updateTable st.schema t _) t = _
      rw [getTable_updateTable, hget]
      rfl
    have hstep := step_table_descr_mid (setTableDescr st t acc) t m
      { tbl with description := some acc } hcur hcol hm1 hm2' hget1 rfl hm3'
    rw [runLines_cons_ok _ _ m rest hstep, append_after_set st t acc (midFrag m),
        ih st tbl (acc ++ midFrag m) hcur hcol hget hrest]
    refine congrArg Except.ok ?_
    unfold setTableDescr
    refine pstate_schema_congr st _ _ ?_
    refine updateTable_congr _ _ _ _ (fun tb => ?_)
    rw [show midsConcat (m :: rest) = midFrag m ++ midsConcat rest from rfl,
        ← string_append_assoc]

theorem colCommentDescr_open (c : Column) (flag : Bool) (cs : List Char) (s0 : List Char)
    (hstart : _containsDescrTagStart cs = true) (hnoend : _containsDescrTagEnd cs = false)
    (hs0 : descrStartSearchL cs = some s0) :
    colCommentDescr c flag cs = .ok (withDescr c (String.mk s0), true) := by
  unfold colCommentDescr withDescr
  simp only [hstart, if_true, hnoend, Bool.false_eq_true, if_false, hs0]

theorem colCommentDescr_mid (c : Column) (cs : List Char) (acc : String)
    (hnostart : _containsDescrTagStart cs = false) (hnoend : _containsDescrTagEnd cs = false)
    (hdesc : c.description = some acc) :
    colCommentDescr c true cs = .ok (withDescr c (acc ++ midFragL cs), true) := by
  unfold colCommentDescr withDescr midFragL
  simp only [hnostart, Bool.false_eq_true, if_false, if_true, hnoend, hdesc]

theorem colCommentDescr_close (c : Column) (cs : List Char) (acc : String) (g : List Char)
    (hnostart : _containsDescrTagStart cs = false) (hend : _containsDescrTagEnd cs = true)
    (hg : descrEndSearchL cs = some g) (hdesc : c.description = some acc) :
    colCommentDescr c true cs = .ok (withDescr c (acc ++ String.mk (rstripWsL g)), false) := by
  unfold colCommentDescr withDescr
  simp only [hnostart, Bool.false_eq_true, if_false, if_true, hend, hg, hdesc]

theorem lastColDescr_state (st : PState) (t : String) (tbl : Table) (c : Column)
    (hget : getTable st.schema t = some tbl) (hlast : lastColumn tbl = some c) :
    lastColDescr st t = c.description := by
  simp only [lastColDescr, hget, hlast]

theorem getTable_colCommentState (st : PState) (t : String) (tbl : Table) (c' : Column)
    (cs : List Char) (fl : Bool) (hget : getTable st.schema t = some tbl) :
    getTable (colCommentState st t c' cs fl).schema t =
      some (setLastColumn tbl (colCommentTags c' cs)) := by
  show getTable (updateTable st.schema t _) t = _
  rw [getTable_updateTable, hget]
  rfl

theorem lastColumn_setLast (tbl : Table) (c0 c : Column) (hlast : lastColumn tbl = some c0) :
    lastColumn (setLastColumn tbl c) = some c := by
  show (updateLast _ tbl.columns).getLast? = _
  rw [updateLast_getLast?]
  show (lastColumn tbl).map _ = _
  rw [hlast]
  rfl

theorem runLines_col_mids (t : String) (mids : List String) :
    ∀ (st : PState) (tbl : Table) (c : Column) (acc : String),
    st.curTable = some t → st.hasColumn = true → st.columnDescription = true →
    getTable st.schema t = some tbl → lastColumn tbl = some c →
    c.description = some acc →
    mids.all plainCommentLine = true →
    ∃ (st' : PState) (tbl' : Table) (c' : Column),
      runLines st mids = .ok st' ∧ st'.curTable = some t ∧ st'.hasColumn = true ∧
      st'.columnDescription = true ∧ getTable st'.schema t = some tbl' ∧
      lastColumn tbl' = some c' ∧ c'.description = some (acc ++ midsConcat mids) := by
  induction mids with
  | nil =>
    intro st tbl c acc h1 h2 h3 h4 h5 h6 _
    refine ⟨st, tbl, c, rfl, h1, h2, h3, h4, h5, ?_⟩
    rw [show midsConcat [] = "" from rfl, string_append_empty]
    exact h6
  | cons m rest ih =>
    intro st tbl c acc h1 h2 h3 h4 h5 h6 hall
    rw [List.all_cons, Bool.and_eq_true] at hall
    obtain ⟨hm, hrest⟩ := hall
    unfold plainCommentLine at hm
    rw [Bool.and_eq_true, Bool.and_eq_true] at hm
    obtain ⟨⟨hm1, hm2⟩, hm3⟩ := hm
    have hm2' : _containsDescrTagStart m.data = false := by
      revert hm2; cases _containsDescrTagStart m.data <;> simp
    have hm3' : _containsDescrTagEnd m.data = false := by
      revert hm3; cases _containsDescrTagEnd m.data <;> simp
    have hcd := colCommentDescr_mid c m.data acc hm2' hm3' h6
    have hstep := processLine_column_comment st t tbl c
      (withDescr c (acc ++ midFragL m.data)) true m h1 h2 h4 h5 hm1
      (by rw [h3]; exact hcd)
    have hget1 := getTable_colCommentState st t tbl
      (withDescr c (acc ++ midFragL m.data)) m.data true h4
    have hlast1 := lastColumn_setLast tbl c
      (colCommentTags (withDescr c (acc ++ midFragL m.data)) m.data) h5
    have hdesc1 : (colCommentTags (withDescr c (acc ++ midFragL m.data)) m.data).description =
        some (acc ++ midFragL m.data) := by
      rw [colCommentTags_description]
      rfl
    obtain ⟨st', tbl', c', hrun, p1, p2, p3, p4, p5, p6⟩ :=
      ih (colCommentState st t (withDescr c (acc ++ midFragL m.data)) m.data true)
        (setLastColumn tbl (colCommentTags (withDescr c (acc ++ midFragL m.data)) m.data))
        (colCommentTags (withDescr c (acc ++ midFragL m.data)) m.data)
        (acc ++ midFragL m.data)
        h1 h2 rfl hget1 hlast1 hdesc1 hrest
    refine ⟨st', tbl', c', ?_, p1, p2, p3, p4, p5, ?_⟩
    · rw [runLines_cons_ok _ _ m rest hstep]
      exact hrun
    · rw [p6, show midsConcat (m :: rest) = midFrag m ++ midsConcat rest from rfl,
          show midFrag m = midFragL m.data from rfl, ← string_append_assoc]

/-- C4: a description opened by `<descr>` on a comment line (without the
closing tag), continued by plain comment lines, and closed by `</descr>`
on a later comment line yields exactly the concatenation of the text
after `<descr>` on the opening line (group 1 of `_descrStart`), the text
after `--` on each intervening line (`_retrDescrMid`, i.e. `midFrag`),
and the text between `--` and `</descr>` on the closing line with its
trailing whitespace stripped (`_retrDescrEnd`) — both for the table
target (no column open yet) and for the column target. -/
theorem c4_multiline_descr_concatenation :
    (∀ (st : PState) (t : String) (tbl : Table) (opened closing : String)
       (mids : List String) (s0 e0 : List Char),
       st.curTable = some t → st.hasColumn = false →
       getTable st.schema t = some tbl →
       isCommentLineL opened.data = true →
       _containsDescrTagStart opened.data = true →
       _containsDescrTagEnd opened.data = false →
       descrStartSearchL opened.data = some s0 →
       mids.all plainCommentLine = true →
       isCommentLineL closing.data = true →
       _containsDescrTagStart closing.data = false →
       _containsDescrTagEnd closing.data = true →
       descrEndSearchL closing.data = some e0 →
       runLines st (opened :: mids ++ [closing]) =
         .ok (setTableDescr st t
           (String.mk s0 ++ midsConcat mids ++ String.mk (rstripWsL e0)))) ∧
    (∀ (st : PState) (t : String) (tbl : Table) (c : Column) (opened closing : String)
       (mids : List String) (s0 e0 : List Char),
       st.curTable = some t → st.hasColumn = true →
       getTable st.schema t = some tbl → lastColumn tbl = some c →
       isCommentLineL opened.data = true →
       _containsDescrTagStart opened.data = true →
       _containsDescrTagEnd opened.data = false →
       descrStartSearchL opened.data = some s0 →
       mids.all plainCommentLine = true →
       isCommentLineL closing.data = true →
       _containsDescrTagStart closing.data = false →
       _containsDescrTagEnd closing.data = true →
       descrEndSearchL closing.data = some e0 →
       ∃ st' : PState,
         runLines st (opened :: mids ++ [closing]) = .ok st' ∧
         st'.columnDescription = false ∧
         lastColDescr st' t =
           some (String.mk s0 ++ midsConcat mids ++ String.mk (rstripWsL e0))) := by
  constructor
  · intro st t tbl opened closing mids s0 e0 hcur hcol hget ho1 ho2 ho3 hs0 hmids hc1 hc2 hc3 he0
    have hopen := step_table_descr_open st t opened s0 hcur hcol ho1 ho2 ho3 hs0
    rw [List.cons_append, runLines_cons_ok _ _ opened (mids ++ [closing]) hopen,
        runLines_append_ok _ _ mids [closing]
          (runLines_table_mids t mids st tbl (String.mk s0) hcur hcol hget hmids)]
    have hget2 : getTable (setTableDescr st t (String.mk s0 ++ midsConcat mids)).schema t =
        some { tbl with description := some (String.mk s0 ++ midsConcat mids) } := by
      show getTable (updateTable st.schema t _) t = _
      rw [getTable_updateTable, hget]
      rfl
    have hclose := step_table_descr_close
      (setTableDescr st t (String.mk s0 ++ midsConcat mids)) t closing
      { tbl with description := some (String.mk s0 ++ midsConcat mids) } e0
      hcur hcol hc1 hc2 hget2 rfl hc3 he0
    rw [runLines_cons_ok _ _ closing [] hclose,
        append_after_set st t (String.mk s0 ++ midsConcat mids) (String.mk (rstripWsL e0))]
    rfl
  · intro st t tbl c opened closing mids s0 e0 hcur hcol hget hlast ho1 ho2 ho3 hs0 hmids
      hc1 hc2 hc3 he0
    have hcdo := colCommentDescr_open c st.columnDescription opened.data s0 ho2 ho3 hs0
    have hopen := processLine_column_comment st t tbl c (withDescr c (String.mk s0)) true
      opened hcur hcol hget hlast ho1 hcdo
    have hgetO := getTable_colCommentState st t tbl (withDescr c (String.mk s0))
      opened.data true hget
    have hlastO := lastColumn_setLast tbl c
      (colCommentTags (withDescr c (String.mk s0)) opened.data) hlast
    have hdescO : (colCommentTags (withDescr c (String.mk s0)) opened.data).description =
        some (String.mk s0) := by
      rw [colCommentTags_description]
      rfl
    obtain ⟨st2, tbl2, c2, hrun2, q1, q2, q3, q4, q5, q6⟩ :=
      runLines_col_mids t mids
        (colCommentState st t (withDescr c (String.mk s0)) opened.data true)
        (setLastColumn tbl (colCommentTags (withDescr c (String.mk s0)) opened.data))
        (colCommentTags (withDescr c (String.mk s0)) opened.data)
        (String.mk s0) hcur hcol rfl hgetO hlastO hdescO hmids
    have hcdc := colCommentDescr_close c2 closing.data (String.mk s0 ++ midsConcat mids) e0
      hc2 hc3 he0 q6
    have hclose := processLine_column_comment st2 t tbl2 c2
      (withDescr c2 (String.mk s0 ++ midsConcat mids ++ String.mk (rstripWsL e0))) false
      closing q1 q2 q4 q5 hc1 (by rw [q3]; exact hcdc)
    refine ⟨colCommentState st2 t
      (withDescr c2 (String.mk s0 ++ midsConcat mids ++ String.mk (rstripWsL e0)))
      closing.data false, ?_, rfl, ?_⟩
    · rw [List.cons_append, runLines_cons_ok _ _ opened (mids ++ [closing]) hopen,
          runLines_append_ok _ _ mids [closing] hrun2,
          runLines_cons_ok _ _ closing [] hclose]
      rfl
    · have hgetC := getTable_colCommentState st2 t tbl2
        (withDescr c2 (String.mk s0 ++ midsConcat mids ++ String.mk (rstripWsL e0)))
        closing.data false q4
      have hlastC := lastColumn_setLast tbl2 c2
        (colCommentTags
          (withDescr c2 (String.mk s0 ++ midsConcat mids ++ String.mk (rstripWsL e0)))
          closing.data) q5
      rw [lastColDescr_state _ t _ _ hgetC hlastC, colCommentTags_description]
      rfl

/-- Witness for C4: the two comment lines of the repository's own test
(`-- <descr>This is` and `-- t2 table.</descr>`) produce exactly the
table description `"This is t2 table."`. -/
theorem c4_witness :
    runLines ⟨[("t2", emptyTable)], some "t2", false, false⟩
        ["   -- <descr>This is", "   -- t2 table.</descr>"] =
      .ok (setTableDescr ⟨[("t2", emptyTable)], some "t2", false, false⟩ "t2"
        "This is t2 table.") := by
  have h := c4_multiline_descr_concatenation.1
    ⟨[("t2", emptyTable)], some "t2", false, false⟩ "t2" emptyTable
    "   -- <descr>This is" "   -- t2 table.</descr>" [] ("This is".toList)
    (" t2 table.".toList) rfl rfl rfl rfl rfl rfl rfl rfl rfl rfl rfl rfl
  exact h.trans (by rfl)

/-- Witness for C5: the `BLOB` column aborts with `KeyError "BLOB"`, and
the datatype `int` of a successfully parsed column is canonical. -/
theorem c5_witness :
    processLine ⟨[("tk", emptyTable)], some "tk", false, false⟩ "    x BLOB," =
      .error (PyErr.keyError "BLOB") ∧
    ("int" : String) ∈ canonicalTypes := by
  constructor
  · exact c5_unknown_type_keyerror.1 ⟨[("tk", emptyTable)], some "tk", false, false⟩ "tk"
      "    x BLOB," ("BLOB".toList) none rfl rfl rfl ⟨"x".toList, rfl, rfl⟩ rfl rfl
  · exact c5_unknown_type_keyerror.2 ["CREATE TABLE w (", "    a INT,", ");"]
      [("w", { columns := [{ name := "a", datatype := "int", arraysize := none,
                             nullable := true }] })] rfl
      ("w", { columns := [{ name := "a", datatype := "int", arraysize := none,
                            nullable := true }] }) (by simp)
      { name := "a", datatype := "int", arraysize := none, nullable := true } (by simp)

end MetaServ
